import Mathlib

/-!
A verification development for the table widget of a terminal UI library
(`src/widgets/table.rs`).  The data model (`Row`, `Table`, `TableState`)
and the two algorithmic cores — the column width allocation
(`Table::get_columns_widths`) and the viewport windowing
(`Table::get_row_bounds`) — are embedded as executable Lean functions.

Modelling conventions:
* `u16`/`usize` values are natural numbers; `saturating_add` on `u16` is
  `satAdd16` (capped at 65535), `saturating_sub` is truncated natural
  subtraction, and the plain `+` of the source is plain `+`.
* The `while` loops of `get_row_bounds` are written as fuel recursions
  returning `Option`: `none` models a Rust panic (an out-of-bounds row
  index, a `usize` underflow, or a failure to terminate within the fuel),
  so "the code never panics" is the statement that the result is `some`.
* The external layout solver (`Layout::split`) is not part of the source
  under review and is modelled from the spec (see `Layout.split`).
-/

namespace RatatuiTable

def U16MAX : Nat := 65535

/-- `u16::saturating_add`. -/
def satAdd16 (a b : Nat) : Nat := min (a + b) U16MAX

/-- One table row: its fixed render height and the extra blank space below
it (`Row { height, bottom_margin, .. }`); the styled cell contents play no
role in the windowing or width computations and are omitted. -/
structure Row where
  height : Nat
  bottom_margin : Nat
deriving DecidableEq

/-- `Row::total_height`: `self.height.saturating_add(self.bottom_margin)`. -/
def Row.total_height (r : Row) : Nat := satAdd16 r.height r.bottom_margin

/-- The width constraint kinds of `layout::Constraint`. -/
inductive Constraint where
  | Percentage (p : Nat)
  | Ratio (num den : Nat)
  | Length (l : Nat)
  | Max (m : Nat)
  | Min (m : Nat)
deriving DecidableEq

/-- `layout::SegmentSize`: the policy for distributing leftover width. -/
inductive SegmentSize where
  | EvenDistribution
  | LastTakesRemainder
  | None
deriving DecidableEq

/-- The table configuration fields consulted by `get_columns_widths` and
`get_row_bounds`; styling, the optional header and the highlight symbol are
pass-through drawing data and are omitted. -/
structure Table where
  widths : List Constraint
  column_spacing : Nat
  rows : List Row
  segment_size : SegmentSize
deriving DecidableEq

/-- `TableState`: the persistent scroll offset and optional selection. -/
structure TableState where
  offset : Nat
  selected : Option Nat
deriving DecidableEq

/-- The predicate checked by `ensure_percentages_less_than_100`:
`Constraint::Percentage(p) => p <= 100`, anything else passes. -/
def between_0_and_100 (w : Constraint) : Bool :=
  match w with
  | Constraint.Percentage p => p ≤ 100
  | _ => true

/-- `ensure_percentages_less_than_100` checks all width constraints; in the
source a failure is an `assert!` panic at construction time. -/
def ensure_percentages_less_than_100 (widths : List Constraint) : Bool :=
  widths.all between_0_and_100

/-- `Table::new`: collects the rows and widths, validating the percentage
constraints first.  The construction-time `assert!` panic is modelled as
`none`.  The defaults match the source (`column_spacing = 1`,
`segment_size = SegmentSize::None`). -/
def Table.new (rows : List Row) (widths : List Constraint) : Option Table :=
  if ensure_percentages_less_than_100 widths then
    some { widths := widths, column_spacing := 1, rows := rows,
           segment_size := SegmentSize.None }
  else none

/-- The builder method `Table::widths`: replaces the width constraints,
with the same construction-time validation as `Table::new`. -/
def Table.with_widths (t : Table) (widths : List Constraint) : Option Table :=
  if ensure_percentages_less_than_100 widths then
    some { t with widths := widths }
  else none

/-- `TableState::select`: sets `selected`; when the new selection is `None`
it also resets `offset` to 0, otherwise `offset` is untouched. -/
def TableState.select (s : TableState) (index : Option Nat) : TableState :=
  { s with selected := index,
           offset := if index.isNone then 0 else s.offset }

/-- Modelled from the spec: the width one constraint demands of the
external layout solver (the solver itself lives outside the source under
review).  Per §4.1/§6 the kinds are fixed length, percentage-of-total,
ratio-of-total, minimum and maximum. -/
def Constraint.apply (c : Constraint) (total : Nat) : Nat :=
  match c with
  | Constraint.Length l => l
  | Constraint.Percentage p => total * p / 100
  | Constraint.Ratio num den => if den = 0 then 0 else total * num / den
  | Constraint.Min m => m
  | Constraint.Max m => m

/-- Modelled from the spec: sequential placement of the solver — one
`(offset, width)` sub-region per constraint, laid left to right, each
clamped to the width still available. -/
def split_go (total : Nat) : List Constraint → Nat → Nat → List (Nat × Nat)
  | [], _, _ => []
  | c :: rest, x, remaining =>
    let w := min (c.apply total) remaining
    (x, w) :: split_go total rest (x + w) (remaining - w)

/-- Modelled from the spec: hand all leftover width to the last segment
(the `LastTakesRemainder` distribution policy). -/
def last_takes (total : Nat) : List (Nat × Nat) → List (Nat × Nat)
  | [] => []
  | [(x, w)] => [(x, max w (total - x))]
  | p :: q :: rest => p :: last_takes total (q :: rest)

/-- Modelled from the spec: grow every segment by the same amount,
shifting the later offsets accordingly (the `EvenDistribution` policy). -/
def add_each (extra : Nat) : List (Nat × Nat) → Nat → List (Nat × Nat)
  | [], _ => []
  | (_, w) :: rest, x => (x, w + extra) :: add_each extra rest (x + w + extra)

/-- Modelled from the spec: the external layout solver `Layout::split`,
which is part of the repository but not of the source under review (§6:
"split(region, direction, constraints, distributionPolicy) -> [sub-region]",
one sub-region per input constraint, with the distribution policy governing
leftover space).  Only horizontal splits of a one-row region are used by
the table, so a region is `(x, width)`. -/
def Layout.split (total : Nat) (seg : SegmentSize) (cs : List Constraint) :
    List (Nat × Nat) :=
  let base := split_go total cs 0 total
  match seg with
  | SegmentSize.None => base
  | SegmentSize.LastTakesRemainder => last_takes total base
  | SegmentSize.EvenDistribution =>
    let used := (base.map Prod.snd).sum
    add_each ((total - used) / max cs.length 1) base 0

/-- `.skip(1).step_by(2)` after the leading selection column: keep every
other element. -/
def every_other {α : Type} : List α → List α
  | [] => []
  | [a] => [a]
  | a :: _ :: rest => a :: every_other rest

/-- `Table::get_columns_widths`: build the synthetic constraint sequence —
a `Length(selection_width)` slot, then the user constraints interspersed
with `Length(column_spacing)` spacer slots — split the viewport width, and
keep only the data-column sub-regions (skip the selection column, then
every other entry skips the spacers). -/
def Table.get_columns_widths (t : Table) (max_width selection_width : Nat) :
    List (Nat × Nat) :=
  let constraints :=
    Constraint.Length selection_width ::
      t.widths.intersperse (Constraint.Length t.column_spacing)
  every_other ((Layout.split max_width t.segment_size constraints).drop 1)

/-- The first loop of `get_row_bounds` (`for item in rows.iter().skip(offset)`):
grow the window forward while the accumulated height plus the candidate's
own height stays within `max_height`; an accepted row advances the
accumulator by its total height (own height plus bottom margin).  `e` is
the running `end` index, `h` the running `height` accumulator. -/
def growWindow (maxH : Nat) : List Row → Nat → Nat → Nat × Nat
  | [], e, h => (e, h)
  | r :: rest, e, h =>
    if h + r.height > maxH then (e, h)
    else growWindow maxH rest (e + 1) (h + r.total_height)

/-- The inner loop of the forward-extension phase of `get_row_bounds`
(`while height > max_height { height -= rows[start].total_height(); start += 1 }`):
evict rows from the front until the accumulator fits.  Fuel recursion;
`none` models an out-of-bounds `rows[start]` or fuel exhaustion. -/
def shrinkFront (rows : List Row) (maxH : Nat) :
    Nat → Nat → Nat → Option (Nat × Nat)
  | 0, _, _ => none
  | fuel + 1, start, h =>
    if h > maxH then
      (rows.get? start).bind fun r =>
        shrinkFront rows maxH fuel (start + 1) (h - r.total_height)
    else some (start, h)

/-- The forward-extension loop of `get_row_bounds`
(`while selected >= end`): absorb `rows[end]` (saturating add of its total
height), bump `end`, then evict from the front until the height fits.
Fuel recursion; `none` models an out-of-bounds `rows[end]`, a failed inner
loop, or fuel exhaustion. -/
def extendToSelected (rows : List Row) (maxH sel : Nat) :
    Nat → Nat → Nat → Nat → Option (Nat × Nat × Nat)
  | 0, _, _, _ => none
  | fuel + 1, start, e, h =>
    if sel ≥ e then
      (rows.get? e).bind fun r =>
        (shrinkFront rows maxH (rows.length + 1) start
            (satAdd16 h r.total_height)).bind fun p =>
          extendToSelected rows maxH sel fuel p.1 (e + 1) p.2
    else some (start, e, h)

/-- The inner loop of the backward-extension phase of `get_row_bounds`
(`while height > max_height { end -= 1; height -= rows[end].total_height() }`):
evict rows from the back until the accumulator fits.  Fuel recursion;
`none` models the `usize` underflow of `end -= 1` at 0, an out-of-bounds
`rows[end]`, or fuel exhaustion. -/
def shrinkBack (rows : List Row) (maxH : Nat) :
    Nat → Nat → Nat → Option (Nat × Nat)
  | 0, _, _ => none
  | fuel + 1, e, h =>
    if h > maxH then
      if e = 0 then none
      else
        (rows.get? (e - 1)).bind fun r =>
          shrinkBack rows maxH fuel (e - 1) (h - r.total_height)
    else some (e, h)

/-- The backward-extension loop of `get_row_bounds`
(`while selected < start`): step `start` back one row (saturating add of
its total height), then evict from the back until the height fits.  Fuel
recursion; `none` models an out-of-bounds `rows[start]`, a failed inner
loop, or fuel exhaustion. -/
def extendBackToSelected (rows : List Row) (maxH sel : Nat) :
    Nat → Nat → Nat → Nat → Option (Nat × Nat × Nat)
  | 0, _, _, _ => none
  | fuel + 1, start, e, h =>
    if sel < start then
      (rows.get? (start - 1)).bind fun r =>
        (shrinkBack rows maxH (rows.length + 1) e
            (satAdd16 h r.total_height)).bind fun p =>
          extendBackToSelected rows maxH sel fuel (start - 1) p.1 p.2
    else some (start, e, h)

/-- `Table::get_row_bounds`: clamp the offset hint, grow the initial
window forward from it, clamp the selection (`selected.unwrap_or(0)`),
then extend forward and backward until the clamped selection is inside the
window.  On an empty row list the source's `self.rows.len() - 1` clamp
underflows and panics (`render` guards the call with `is_empty`), which is
modelled by returning `none`; each loop gets fuel `rows.length + 1`. -/
def Table.get_row_bounds (t : Table) (selected : Option Nat) (offset : Nat)
    (max_height : Nat) : Option (Nat × Nat) :=
  if t.rows = [] then none
  else
    let offset' := min offset (t.rows.length - 1)
    let grown := growWindow max_height (t.rows.drop offset') offset' 0
    let sel := min (selected.getD 0) (t.rows.length - 1)
    (extendToSelected t.rows max_height sel (t.rows.length + 1) offset'
        grown.1 grown.2).bind fun p =>
      (extendBackToSelected t.rows max_height sel (t.rows.length + 1)
          p.1 p.2.1 p.2.2).map fun q => (q.1, q.2.1)

/-- The data-row part of `StatefulWidget::render` for `Table` (the early
return on an empty row list, then `get_row_bounds` and the write-back
`state.offset = start`).  `none` models a panicking `get_row_bounds`. -/
def render_rows_update (t : Table) (st : TableState) (rows_height : Nat) :
    Option TableState :=
  if t.rows = [] then some st
  else
    (t.get_row_bounds st.selected st.offset rows_height).map
      (fun p => { st with offset := p.1 })

/-- Sum of the total heights of a list of rows. -/
def sumTotals (l : List Row) : Nat := (l.map Row.total_height).sum

/-- The total height of the row at index `i`, 0 past the end. -/
def totalAt (rows : List Row) (i : Nat) : Nat :=
  match rows.get? i with
  | some r => r.total_height
  | none => 0

/-- Sum of the total heights of the rows with indices in `[s, e)`. -/
def sumT (rows : List Row) (s e : Nat) : Nat :=
  if _h : s < e then totalAt rows s + sumT rows (s + 1) e else 0
termination_by e - s

/-! ## Arithmetic and summation lemmas -/

theorem satAdd16_le (a b : Nat) : satAdd16 a b ≤ a + b := min_le_left _ _

theorem height_le_total_height (r : Row) (h : r.height ≤ U16MAX) :
    r.height ≤ r.total_height := by
  unfold Row.total_height satAdd16
  rcases le_total (r.height + r.bottom_margin) U16MAX with hle | hle
  · rw [min_eq_left hle]; omega
  · rw [min_eq_right hle]; exact h

theorem totalAt_eq {rows : List Row} {i : Nat} {r : Row}
    (h : rows.get? i = some r) : totalAt rows i = r.total_height := by
  unfold totalAt
  rw [h]

theorem sumT_zero (rows : List Row) {s e : Nat} (h : e ≤ s) :
    sumT rows s e = 0 := by
  rw [sumT]; simp [Nat.not_lt.mpr h]

theorem sumT_succ_left (rows : List Row) {s e : Nat} (h : s < e) :
    sumT rows s e = totalAt rows s + sumT rows (s + 1) e := by
  rw [sumT]; simp [h]

theorem sumT_succ_right (rows : List Row) {s e : Nat} (h : s ≤ e) :
    sumT rows s (e + 1) = sumT rows s e + totalAt rows e := by
  obtain ⟨d, rfl⟩ : ∃ d, e = s + d := ⟨e - s, by omega⟩
  clear h
  induction d generalizing s with
  | zero =>
    show sumT rows s (s + 1) = sumT rows s s + totalAt rows s
    rw [sumT_succ_left rows (Nat.lt_succ_self s),
      sumT_zero rows (Nat.le_refl (s + 1)), sumT_zero rows (Nat.le_refl s)]
    omega
  | succ d ih =>
    rw [sumT_succ_left rows (show s < s + (d + 1) + 1 by omega)]
    rw [sumT_succ_left rows (show s < s + (d + 1) by omega)]
    have h1 : s + (d + 1) + 1 = (s + 1) + d + 1 := by omega
    have h2 : s + (d + 1) = (s + 1) + d := by omega
    rw [h1, h2, @ih (s + 1)]
    omega

theorem sumTotals_cons (r : Row) (l : List Row) :
    sumTotals (r :: l) = r.total_height + sumTotals l := by
  simp [sumTotals]

theorem sumTotals_take_succ (l : List Row) (n : Nat) :
    sumTotals (l.take (n + 1)) = sumTotals (l.take n) + totalAt l n := by
  induction l generalizing n with
  | nil => simp [sumTotals, totalAt]
  | cons a tl ih =>
    cases n with
    | zero => simp [sumTotals, totalAt]
    | succ n =>
      show sumTotals (a :: tl.take (n + 1)) =
        sumTotals (a :: tl.take n) + totalAt (a :: tl) (n + 1)
      rw [sumTotals_cons, sumTotals_cons, ih n]
      have h : totalAt (a :: tl) (n + 1) = totalAt tl n := rfl
      rw [h]
      omega

theorem sumTotals_take_le (l : List Row) (n : Nat) :
    sumTotals (l.take n) ≤ sumTotals l := by
  induction l generalizing n with
  | nil => simp
  | cons a tl ih =>
    cases n with
    | zero => simp [sumTotals]
    | succ n =>
      show sumTotals (a :: tl.take n) ≤ sumTotals (a :: tl)
      rw [sumTotals_cons, sumTotals_cons]
      exact Nat.add_le_add_left (ih n) _

theorem sumT_eq_take (rows : List Row) (o n : Nat) :
    sumT rows o (o + n) = sumTotals ((rows.drop o).take n) := by
  induction n with
  | zero =>
    rw [Nat.add_zero, sumT_zero rows (Nat.le_refl o)]
    simp [sumTotals]
  | succ n ih =>
    rw [show o + (n + 1) = (o + n) + 1 from rfl,
      sumT_succ_right rows (by omega), ih, sumTotals_take_succ]
    have h : totalAt (rows.drop o) n = totalAt rows (o + n) := by
      simp [totalAt, List.get?_drop]
    rw [h]

/-! ## The initial forward-growth loop -/

theorem growWindow_spec (maxH : Nat) (l : List Row) (e₀ h₀ : Nat) :
    ∃ n, growWindow maxH l e₀ h₀ = (e₀ + n, h₀ + sumTotals (l.take n)) ∧
      n ≤ l.length ∧
      (∀ i r, i < n → l.get? i = some r →
        h₀ + sumTotals (l.take i) + r.height ≤ maxH) ∧
      (∀ r, l.get? n = some r →
        maxH < h₀ + sumTotals (l.take n) + r.height) := by
  induction l generalizing e₀ h₀ with
  | nil =>
    refine ⟨0, by simp [growWindow, sumTotals], by simp, ?_, ?_⟩
    · intro i r hi _; omega
    · intro r hr; simp at hr
  | cons a tl ih =>
    by_cases hc : h₀ + a.height > maxH
    · refine ⟨0, by simp [growWindow, hc, sumTotals], by simp, ?_, ?_⟩
      · intro i r hi _; omega
      · intro r hr
        simp only [List.get?] at hr
        cases hr
        simpa [sumTotals] using hc
    · obtain ⟨n, heq, hlen, hincl, hstop⟩ := ih (e₀ + 1) (h₀ + a.total_height)
      refine ⟨n + 1, ?_, by simpa using hlen, ?_, ?_⟩
      · show growWindow maxH (a :: tl) e₀ h₀ = _
        simp only [growWindow]
        rw [if_neg hc, heq]
        have h1 : (a :: tl).take (n + 1) = a :: tl.take n := rfl
        rw [h1, sumTotals_cons]
        refine Prod.ext ?_ ?_ <;> simp <;> omega
      · intro i r hi hr
        cases i with
        | zero =>
          simp only [List.get?] at hr
          cases hr
          simpa [sumTotals] using hc
        | succ i =>
          have h2 := hincl i r (by omega) hr
          have h1 : (a :: tl).take (i + 1) = a :: tl.take i := rfl
          rw [h1, sumTotals_cons]
          omega
      · intro r hr
        have h2 := hstop r hr
        have h1 : (a :: tl).take (n + 1) = a :: tl.take n := rfl
        rw [h1, sumTotals_cons]
        omega

/-! ## The front/back eviction loops

The key invariant threaded through every loop is `h ≤ sumT rows start e`:
the running accumulator never exceeds the true total height of the current
window `[start, e)` (saturating adds only lose height, saturating subs are
exact or lose height).  It yields both termination within the given fuel
and in-bounds indexing, because an empty window forces the accumulator to
0, which never exceeds `max_height`. -/

theorem shrinkFront_spec (rows : List Row) (maxH : Nat) :
    ∀ fuel start h e, start ≤ e → e ≤ rows.length → h ≤ sumT rows start e →
      e - start < fuel →
      ∃ s' h', shrinkFront rows maxH fuel start h = some (s', h') ∧
        start ≤ s' ∧ s' ≤ e ∧ h' ≤ sumT rows s' e ∧ h' ≤ maxH := by
  intro fuel
  induction fuel with
  | zero => intro start h e _ _ _ hf; omega
  | succ fuel ih =>
    intro start h e hse hel hsum hf
    by_cases hc : h > maxH
    · have hlt : start < e := by
        rcases Nat.lt_or_ge start e with h1 | h1
        · exact h1
        · rw [sumT_zero rows h1] at hsum; omega
      have hsl : start < rows.length := by omega
      obtain ⟨r, hr⟩ : ∃ r, rows.get? start = some r :=
        ⟨rows.get ⟨start, hsl⟩, List.get?_eq_get hsl⟩
      rw [sumT_succ_left rows hlt, totalAt_eq hr] at hsum
      obtain ⟨s', h', heq, p1, p2, p3, p4⟩ :=
        ih (start + 1) (h - r.total_height) e (by omega) hel (by omega)
          (by omega)
      refine ⟨s', h', ?_, by omega, p2, p3, p4⟩
      simp only [shrinkFront]
      rw [if_pos hc, hr]
      exact heq
    · refine ⟨start, h, ?_, Nat.le_refl _, hse, hsum, by omega⟩
      simp only [shrinkFront]
      rw [if_neg hc]

theorem shrinkBack_spec (rows : List Row) (maxH start : Nat) :
    ∀ fuel e h, start ≤ e → e ≤ rows.length → h ≤ sumT rows start e →
      e - start < fuel →
      ∃ e' h', shrinkBack rows maxH fuel e h = some (e', h') ∧
        start ≤ e' ∧ e' ≤ e ∧ h' ≤ sumT rows start e' ∧ h' ≤ maxH := by
  intro fuel
  induction fuel with
  | zero => intro e h _ _ _ hf; omega
  | succ fuel ih =>
    intro e h hse hel hsum hf
    by_cases hc : h > maxH
    · have hlt : start < e := by
        rcases Nat.lt_or_ge start e with h1 | h1
        · exact h1
        · rw [sumT_zero rows h1] at hsum; omega
      have hne : ¬ e = 0 := by omega
      have hsl : e - 1 < rows.length := by omega
      obtain ⟨r, hr⟩ : ∃ r, rows.get? (e - 1) = some r :=
        ⟨rows.get ⟨e - 1, hsl⟩, List.get?_eq_get hsl⟩
      have hdec : sumT rows start e = sumT rows start (e - 1) + r.total_height := by
        have h1 := sumT_succ_right rows (show start ≤ e - 1 by omega)
        rw [show (e - 1) + 1 = e by omega, totalAt_eq hr] at h1
        exact h1
      rw [hdec] at hsum
      obtain ⟨e', h', heq, p1, p2, p3, p4⟩ :=
        ih (e - 1) (h - r.total_height) (by omega) (by omega) (by omega)
          (by omega)
      refine ⟨e', h', ?_, p1, by omega, p3, p4⟩
      simp only [shrinkBack]
      rw [if_pos hc, if_neg hne, hr]
      exact heq
    · refine ⟨e, h, ?_, hse, Nat.le_refl _, hsum, by omega⟩
      simp only [shrinkBack]
      rw [if_neg hc]

theorem shrinkBack_keep (rows : List Row) (maxH start : Nat)
    (hTot : ∀ r ∈ rows, r.total_height ≤ maxH) :
    ∀ fuel e h, start < e → e ≤ rows.length → h ≤ sumT rows start e →
      e - start < fuel →
      ∃ e' h', shrinkBack rows maxH fuel e h = some (e', h') ∧
        start < e' ∧ e' ≤ e ∧ h' ≤ sumT rows start e' ∧ h' ≤ maxH := by
  intro fuel
  induction fuel with
  | zero => intro e h _ _ _ hf; omega
  | succ fuel ih =>
    intro e h hse hel hsum hf
    by_cases hc : h > maxH
    · have hne : ¬ e = 0 := by omega
      have hsl : e - 1 < rows.length := by omega
      obtain ⟨r, hr⟩ : ∃ r, rows.get? (e - 1) = some r :=
        ⟨rows.get ⟨e - 1, hsl⟩, List.get?_eq_get hsl⟩
      have hlt : start < e - 1 := by
        rcases Nat.lt_or_ge start (e - 1) with h1 | h1
        · exact h1
        · exfalso
          have h2 : e = start + 1 := by omega
          subst h2
          rw [sumT_succ_left rows hse,
            sumT_zero rows (Nat.le_refl (start + 1))] at hsum
          have h3 : rows.get? start = some r := by
            rw [show start = start + 1 - 1 from rfl]; exact hr
          rw [totalAt_eq h3] at hsum
          have h4 := hTot r (List.get?_mem h3)
          omega
      have hdec : sumT rows start e = sumT rows start (e - 1) + r.total_height := by
        have h1 := sumT_succ_right rows (show start ≤ e - 1 by omega)
        rw [show (e - 1) + 1 = e by omega, totalAt_eq hr] at h1
        exact h1
      rw [hdec] at hsum
      obtain ⟨e', h', heq, p1, p2, p3, p4⟩ :=
        ih (e - 1) (h - r.total_height) hlt (by omega) (by omega) (by omega)
      refine ⟨e', h', ?_, p1, by omega, p3, p4⟩
      simp only [shrinkBack]
      rw [if_pos hc, if_neg hne, hr]
      exact heq
    · refine ⟨e, h, ?_, hse, Nat.le_refl _, hsum, by omega⟩
      simp only [shrinkBack]
      rw [if_neg hc]

/-! ## The forward and backward extension loops -/

theorem extendTo_spec (rows : List Row) (maxH sel : Nat)
    (hsel : sel < rows.length) :
    ∀ fuel start e h, start ≤ e → e ≤ rows.length → h ≤ sumT rows start e →
      sel + 1 - e < fuel →
      ∃ s' e' h',
        extendToSelected rows maxH sel fuel start e h = some (s', e', h') ∧
        s' ≤ e' ∧ e' ≤ rows.length ∧ sel < e' ∧ e ≤ e' ∧
        h' ≤ sumT rows s' e' := by
  intro fuel
  induction fuel with
  | zero => intro start e h _ _ _ hf; omega
  | succ fuel ih =>
    intro start e h hse hel hsum hf
    by_cases hcond : sel ≥ e
    · have hel' : e < rows.length := by omega
      obtain ⟨r, hr⟩ : ∃ r, rows.get? e = some r :=
        ⟨rows.get ⟨e, hel'⟩, List.get?_eq_get hel'⟩
      have hsum1 : satAdd16 h r.total_height ≤ sumT rows start (e + 1) := by
        have h1 := sumT_succ_right rows hse
        rw [totalAt_eq hr] at h1
        have h2 := satAdd16_le h r.total_height
        omega
      obtain ⟨s₁, h₁, heq₁, q1, q2, q3, _⟩ :=
        shrinkFront_spec rows maxH (rows.length + 1) start
          (satAdd16 h r.total_height) (e + 1) (by omega) (by omega) hsum1
          (by omega)
      obtain ⟨s', e', h', heq, p1, p2, p3, p4, p5⟩ :=
        ih s₁ (e + 1) h₁ q2 (by omega) q3 (by omega)
      refine ⟨s', e', h', ?_, p1, p2, p3, by omega, p5⟩
      simp only [extendToSelected]
      rw [if_pos hcond, hr]
      simp only [Option.some_bind]
      rw [heq₁]
      simp only [Option.some_bind]
      exact heq
    · refine ⟨start, e, h, ?_, hse, hel, by omega, Nat.le_refl _, hsum⟩
      simp only [extendToSelected]
      rw [if_neg hcond]

theorem extendBack_spec (rows : List Row) (maxH sel : Nat) :
    ∀ fuel start e h, start ≤ e → e ≤ rows.length → h ≤ sumT rows start e →
      start - sel < fuel →
      ∃ s' e' h',
        extendBackToSelected rows maxH sel fuel start e h = some (s', e', h') ∧
        s' ≤ sel ∧ s' ≤ e' ∧ e' ≤ e := by
  intro fuel
  induction fuel with
  | zero => intro start e h _ _ _ hf; omega
  | succ fuel ih =>
    intro start e h hse hel hsum hf
    by_cases hcond : sel < start
    · have hsl : start - 1 < rows.length := by omega
      obtain ⟨r, hr⟩ : ∃ r, rows.get? (start - 1) = some r :=
        ⟨rows.get ⟨start - 1, hsl⟩, List.get?_eq_get hsl⟩
      have hdec : sumT rows (start - 1) e = r.total_height + sumT rows start e := by
        have h1 := sumT_succ_left rows (show start - 1 < e by omega)
        rw [show start - 1 + 1 = start by omega, totalAt_eq hr] at h1
        exact h1
      have hsum1 : satAdd16 h r.total_height ≤ sumT rows (start - 1) e := by
        have h2 := satAdd16_le h r.total_height
        omega
      obtain ⟨e₁, h₂, heq₁, q1, q2, q3, q4⟩ :=
        shrinkBack_spec rows maxH (start - 1) (rows.length + 1) e
          (satAdd16 h r.total_height) (by omega) hel hsum1 (by omega)
      obtain ⟨s', e', h', heq, p1, p2, p3⟩ :=
        ih (start - 1) e₁ h₂ q1 (by omega) q3 (by omega)
      refine ⟨s', e', h', ?_, p1, p2, by omega⟩
      simp only [extendBackToSelected]
      rw [if_pos hcond, hr]
      simp only [Option.some_bind]
      rw [heq₁]
      simp only [Option.some_bind]
      exact heq
    · refine ⟨start, e, h, ?_, by omega, hse, Nat.le_refl _⟩
      simp only [extendBackToSelected]
      rw [if_neg hcond]

theorem extendBack_keep (rows : List Row) (maxH sel : Nat)
    (hTot : ∀ r ∈ rows, r.total_height ≤ maxH) :
    ∀ fuel start e h, start ≤ e → e ≤ rows.length → sel < e →
      h ≤ sumT rows start e → start - sel < fuel →
      ∃ s' e' h',
        extendBackToSelected rows maxH sel fuel start e h = some (s', e', h') ∧
        s' ≤ sel ∧ sel < e' ∧ e' ≤ e := by
  intro fuel
  induction fuel with
  | zero => intro start e h _ _ _ _ hf; omega
  | succ fuel ih =>
    intro start e h hse hel hsele hsum hf
    by_cases hcond : sel < start
    · have hsl : start - 1 < rows.length := by omega
      obtain ⟨r, hr⟩ : ∃ r, rows.get? (start - 1) = some r :=
        ⟨rows.get ⟨start - 1, hsl⟩, List.get?_eq_get hsl⟩
      have hdec : sumT rows (start - 1) e = r.total_height + sumT rows start e := by
        have h1 := sumT_succ_left rows (show start - 1 < e by omega)
        rw [show start - 1 + 1 = start by omega, totalAt_eq hr] at h1
        exact h1
      have hsum1 : satAdd16 h r.total_height ≤ sumT rows (start - 1) e := by
        have h2 := satAdd16_le h r.total_height
        omega
      obtain ⟨e₁, h₂, heq₁, q1, q2, q3, q4⟩ :=
        shrinkBack_keep rows maxH (start - 1) hTot (rows.length + 1) e
          (satAdd16 h r.total_height) (by omega) hel hsum1 (by omega)
      obtain ⟨s', e', h', heq, p1, p2, p3⟩ :=
        ih (start - 1) e₁ h₂ (by omega) (by omega) (by omega) q3 (by omega)
      refine ⟨s', e', h', ?_, p1, p2, by omega⟩
      simp only [extendBackToSelected]
      rw [if_pos hcond, hr]
      simp only [Option.some_bind]
      rw [heq₁]
      simp only [Option.some_bind]
      exact heq
    · refine ⟨start, e, h, ?_, by omega, hsele, Nat.le_refl _⟩
      simp only [extendBackToSelected]
      rw [if_neg hcond]

/-! ## Pipeline lemmas for `get_row_bounds` -/

theorem get_row_bounds_run (t : Table) (selo : Option Nat) (offset maxH : Nat)
    (hne : t.rows ≠ []) :
    ∃ s e, t.get_row_bounds selo offset maxH = some (s, e) ∧
      s ≤ min (selo.getD 0) (t.rows.length - 1) ∧ s ≤ e ∧
      e ≤ t.rows.length := by
  have hlen : 0 < t.rows.length := List.length_pos.mpr hne
  have hoff : min offset (t.rows.length - 1) < t.rows.length := by omega
  have hsel : min (selo.getD 0) (t.rows.length - 1) < t.rows.length := by omega
  obtain ⟨n, hgw, hnle, -, -⟩ :=
    growWindow_spec maxH (t.rows.drop (min offset (t.rows.length - 1)))
      (min offset (t.rows.length - 1)) 0
  rw [List.length_drop] at hnle
  have he₁ : min offset (t.rows.length - 1) + n ≤ t.rows.length := by omega
  have hsum : (0 : Nat) +
      sumTotals ((t.rows.drop (min offset (t.rows.length - 1))).take n) ≤
      sumT t.rows (min offset (t.rows.length - 1))
        (min offset (t.rows.length - 1) + n) := by
    rw [sumT_eq_take]; omega
  obtain ⟨s₁, e₁, h₁, heqT, q1, q2, q3, q4, q5⟩ :=
    extendTo_spec t.rows maxH (min (selo.getD 0) (t.rows.length - 1)) hsel
      (t.rows.length + 1) (min offset (t.rows.length - 1))
      (min offset (t.rows.length - 1) + n)
      (0 + sumTotals ((t.rows.drop (min offset (t.rows.length - 1))).take n))
      (by omega) he₁ hsum (by omega)
  obtain ⟨s₂, e₂, h₂, heqB, r1, r2, r3⟩ :=
    extendBack_spec t.rows maxH (min (selo.getD 0) (t.rows.length - 1))
      (t.rows.length + 1) s₁ e₁ h₁ q1 q2 q5 (by omega)
  refine ⟨s₂, e₂, ?_, r1, r2, by omega⟩
  simp only [Table.get_row_bounds]
  rw [if_neg hne]
  simp only [hgw]
  rw [heqT]
  simp only [Option.some_bind]
  rw [heqB]
  simp only [Option.map_some']

theorem get_row_bounds_keep (t : Table) (s offset maxH : Nat)
    (hne : t.rows ≠ []) (hs : s < t.rows.length)
    (hTot : ∀ r ∈ t.rows, r.total_height ≤ maxH) :
    ∃ a b, t.get_row_bounds (some s) offset maxH = some (a, b) ∧
      a ≤ s ∧ s < b ∧ b ≤ t.rows.length := by
  have hlen : 0 < t.rows.length := List.length_pos.mpr hne
  have hmin : min ((some s).getD 0) (t.rows.length - 1) = s := by
    simp only [Option.getD_some]; omega
  have hoff : min offset (t.rows.length - 1) < t.rows.length := by omega
  obtain ⟨n, hgw, hnle, -, -⟩ :=
    growWindow_spec maxH (t.rows.drop (min offset (t.rows.length - 1)))
      (min offset (t.rows.length - 1)) 0
  rw [List.length_drop] at hnle
  have he₁ : min offset (t.rows.length - 1) + n ≤ t.rows.length := by omega
  have hsum : (0 : Nat) +
      sumTotals ((t.rows.drop (min offset (t.rows.length - 1))).take n) ≤
      sumT t.rows (min offset (t.rows.length - 1))
        (min offset (t.rows.length - 1) + n) := by
    rw [sumT_eq_take]; omega
  obtain ⟨s₁, e₁, h₁, heqT, q1, q2, q3, q4, q5⟩ :=
    extendTo_spec t.rows maxH s hs (t.rows.length + 1)
      (min offset (t.rows.length - 1)) (min offset (t.rows.length - 1) + n)
      (0 + sumTotals ((t.rows.drop (min offset (t.rows.length - 1))).take n))
      (by omega) he₁ hsum (by omega)
  obtain ⟨s₂, e₂, h₂, heqB, r1, r2, r3⟩ :=
    extendBack_keep t.rows maxH s hTot (t.rows.length + 1) s₁ e₁ h₁ q1 q2 q3
      q5 (by omega)
  refine ⟨s₂, e₂, ?_, r1, r2, by omega⟩
  simp only [Table.get_row_bounds]
  rw [if_neg hne, hmin]
  simp only [hgw]
  rw [heqT]
  simp only [Option.some_bind]
  rw [heqB]
  simp only [Option.map_some']

theorem get_row_bounds_full (t : Table) (selo : Option Nat) (maxH : Nat)
    (hne : t.rows ≠ []) (hWF : ∀ r ∈ t.rows, r.height ≤ U16MAX)
    (hfit : sumTotals t.rows ≤ maxH) :
    t.get_row_bounds selo 0 maxH = some (0, t.rows.length) := by
  have hlen : 0 < t.rows.length := List.length_pos.mpr hne
  have hmin0 : min 0 (t.rows.length - 1) = 0 := by omega
  obtain ⟨n, hgw, hnle, hincl, hstop⟩ := growWindow_spec maxH t.rows 0 0
  have hn : n = t.rows.length := by
    by_contra hne'
    have hlt : n < t.rows.length := by omega
    obtain ⟨r, hr⟩ : ∃ r, t.rows.get? n = some r :=
      ⟨t.rows.get ⟨n, hlt⟩, List.get?_eq_get hlt⟩
    have h1 := hstop r hr
    have h2 := height_le_total_height r (hWF r (List.get?_mem hr))
    have h3 : sumTotals (t.rows.take n) + r.total_height =
        sumTotals (t.rows.take (n + 1)) := by
      rw [sumTotals_take_succ, totalAt_eq hr]
    have h4 := sumTotals_take_le t.rows (n + 1)
    omega
  subst hn
  rw [List.take_length] at hgw
  have hsel : min (selo.getD 0) (t.rows.length - 1) < t.rows.length := by omega
  have hT : extendToSelected t.rows maxH
      (min (selo.getD 0) (t.rows.length - 1)) (t.rows.length + 1) 0
      (0 + t.rows.length) (0 + sumTotals t.rows) =
      some (0, 0 + t.rows.length, 0 + sumTotals t.rows) := by
    simp only [extendToSelected]
    rw [if_neg (by omega)]
  have hB : extendBackToSelected t.rows maxH
      (min (selo.getD 0) (t.rows.length - 1)) (t.rows.length + 1) 0
      (0 + t.rows.length) (0 + sumTotals t.rows) =
      some (0, 0 + t.rows.length, 0 + sumTotals t.rows) := by
    simp only [extendBackToSelected]
    rw [if_neg (by omega)]
  simp only [Table.get_row_bounds]
  rw [if_neg hne, hmin0, List.drop_zero]
  simp only [hgw]
  rw [hT]
  simp only [Option.some_bind]
  rw [hB]
  simp only [Option.map_some']
  simp

/-! ## Auxiliary lemma for the percentage validation -/

theorem ensure_iff (ws : List Constraint) :
    ensure_percentages_less_than_100 ws = true ↔
      ∀ p : Nat, Constraint.Percentage p ∈ ws → p ≤ 100 := by
  unfold ensure_percentages_less_than_100
  rw [List.all_eq_true]
  constructor
  · intro h p hp
    have h1 := h _ hp
    simpa only [between_0_and_100, decide_eq_true_eq] using h1
  · intro h w hw
    cases w with
    | Percentage p =>
      simp only [between_0_and_100, decide_eq_true_eq]
      exact h p hw
    | Ratio num den => rfl
    | Length l => rfl
    | Max m => rfl
    | Min m => rfl

/-! ## The claims -/

/-- Claim C1 (corrected): for a non-empty table, a selected index `s` that
is a valid row index, a positive available height, and any offset hint,
the computed window `(a, b)` satisfies `a ≤ s < b` and `b - a ≥ 1` —
provided additionally that every row's total height fits in the available
height.  Without that extra hypothesis the claim is false (see the
counterexample): a row taller than the viewport is evicted together with
the selection, leaving an empty window. -/
theorem claim1_window_invariant (t : Table) (s offset maxH : Nat)
    (hne : t.rows ≠ []) (hs : s < t.rows.length) (hpos : 0 < maxH)
    (hTot : ∀ r ∈ t.rows, r.total_height ≤ maxH) :
    ∃ a b, t.get_row_bounds (some s) offset maxH = some (a, b) ∧
      a ≤ s ∧ s < b ∧ 1 ≤ b - a := by
  obtain ⟨a, b, h1, h2, h3, -⟩ := get_row_bounds_keep t s offset maxH hne hs hTot
  exact ⟨a, b, h1, h2, h3, by omega⟩

/-- Witness for C1 at a concrete input: one row of height 1, available
height 1, selection 0. -/
theorem claim1_window_invariant_witness :
    ∃ a b, Table.get_row_bounds ⟨[], 1, [⟨1, 0⟩], SegmentSize.None⟩
        (some 0) 0 1 = some (a, b) ∧ a ≤ 0 ∧ 0 < b ∧ 1 ≤ b - a :=
  claim1_window_invariant ⟨[], 1, [⟨1, 0⟩], SegmentSize.None⟩ 0 0 1
    (by decide) (by decide) (by decide) (by decide)

/-- Counterexample to C1 as stated: one row of height 2, available height
1 (positive), selection 0 (a valid index), offset 0.  `get_row_bounds`
returns the empty window `(0, 0)`, so `s < end` and `end - start ≥ 1` both
fail. -/
theorem claim1_window_invariant_cex :
    Table.get_row_bounds ⟨[], 1, [⟨2, 0⟩], SegmentSize.None⟩ (some 0) 0 1 =
      some (0, 0) ∧
    ¬ ∃ a b, Table.get_row_bounds ⟨[], 1, [⟨2, 0⟩], SegmentSize.None⟩
        (some 0) 0 1 = some (a, b) ∧ a ≤ 0 ∧ 0 < b ∧ 1 ≤ b - a := by
  refine ⟨rfl, ?_⟩
  rintro ⟨a, b, heq, -, hb, -⟩
  have hconc : Table.get_row_bounds ⟨[], 1, [⟨2, 0⟩], SegmentSize.None⟩
      (some 0) 0 1 = some (0, 0) := rfl
  rw [hconc] at heq
  simp only [Option.some.injEq, Prod.mk.injEq] at heq
  omega

/-- Claim C2 (corrected): when the available height is at least the sum of
all rows' total heights and the offset hint is 0, the window is
`(0, rowCount)` regardless of the selection.  As stated — for *every*
offset hint — the claim is false (see the counterexample): a nonzero
clamped offset hint is kept whenever the selection already lies at or
past it, so the window starts there, not at 0. -/
theorem claim2_all_rows_fit (t : Table) (selo : Option Nat) (maxH : Nat)
    (hne : t.rows ≠ []) (hWF : ∀ r ∈ t.rows, r.height ≤ U16MAX)
    (hfit : sumTotals t.rows ≤ maxH) :
    t.get_row_bounds selo 0 maxH = some (0, t.rows.length) :=
  get_row_bounds_full t selo maxH hne hWF hfit

/-- Witness for C2 at a concrete input: two rows of total heights 1 and 3,
available height 10. -/
theorem claim2_all_rows_fit_witness :
    Table.get_row_bounds ⟨[], 1, [⟨1, 0⟩, ⟨2, 1⟩], SegmentSize.None⟩
      (some 1) 0 10 = some (0, 2) :=
  claim2_all_rows_fit ⟨[], 1, [⟨1, 0⟩, ⟨2, 1⟩], SegmentSize.None⟩ (some 1) 10
    (by decide) (by decide) (by decide)

/-- Counterexample to C2 as stated: five rows of height 1, available
height 5 (enough for all rows), offset hint 3, selection 4.  The result is
`(3, 5)`, not `(0, 5)`. -/
theorem claim2_all_rows_fit_cex :
    sumTotals [(⟨1, 0⟩ : Row), ⟨1, 0⟩, ⟨1, 0⟩, ⟨1, 0⟩, ⟨1, 0⟩] ≤ 5 ∧
    Table.get_row_bounds
      ⟨[], 1, [⟨1, 0⟩, ⟨1, 0⟩, ⟨1, 0⟩, ⟨1, 0⟩, ⟨1, 0⟩], SegmentSize.None⟩
      (some 4) 3 5 = some (3, 5) ∧
    ((3, 5) : Nat × Nat) ≠ (0, 5) :=
  ⟨by decide, rfl, by decide⟩

/-- Claim C3: five rows of height 1, available height 3, offset hint 0,
selection 4 — the window is `(2, 5)`. -/
theorem claim3_concrete_window :
    Table.get_row_bounds
      ⟨[], 1, [⟨1, 0⟩, ⟨1, 0⟩, ⟨1, 0⟩, ⟨1, 0⟩, ⟨1, 0⟩], SegmentSize.None⟩
      (some 4) 0 3 = some (2, 5) := rfl

/-- Claim C4: the initial forward growth (`growWindow`, invoked by
`get_row_bounds` at the clamped offset with accumulator 0) includes
exactly the rows of the longest prefix on which the accumulated *total*
heights of the already-included rows plus the candidate's *own* height
(bottom margin excluded) stay within the available height; the
accumulator it returns is the sum of the included rows' total heights, and
growth stops at the first failing row. -/
theorem claim4_growth_break_test (maxH : Nat) (l : List Row) (e₀ : Nat) :
    ∃ n, growWindow maxH l e₀ 0 = (e₀ + n, sumTotals (l.take n)) ∧
      n ≤ l.length ∧
      (∀ i r, i < n → l.get? i = some r →
        sumTotals (l.take i) + r.height ≤ maxH) ∧
      (∀ r, l.get? n = some r → maxH < sumTotals (l.take n) + r.height) := by
  obtain ⟨n, h1, h2, h3, h4⟩ := growWindow_spec maxH l e₀ 0
  refine ⟨n, by simpa using h1, h2, ?_, ?_⟩
  · intro i r hi hr
    have h5 := h3 i r hi hr
    omega
  · intro r hr
    have h5 := h4 r hr
    omega

/-- Claim C5: with no selection, `get_row_bounds` always returns
`start = 0` (the absent selection is clamped to row 0), and the data-row
phase of `render` therefore rewrites the stored offset to 0. -/
theorem claim5_none_selection_offset_zero (t : Table) (st : TableState)
    (maxH : Nat) (hne : t.rows ≠ []) (hsel : st.selected = none) :
    ∃ e st', t.get_row_bounds st.selected st.offset maxH = some (0, e) ∧
      render_rows_update t st maxH = some st' ∧ st'.offset = 0 := by
  obtain ⟨s, e, h1, h2, -, -⟩ := get_row_bounds_run t st.selected st.offset maxH hne
  have hs0 : s = 0 := by
    rw [hsel] at h2
    simp only [Option.getD_none] at h2
    omega
  subst hs0
  refine ⟨e, { st with offset := 0 }, h1, ?_, rfl⟩
  unfold render_rows_update
  rw [if_neg hne, h1]
  rfl

/-- Witness for C5 at a concrete input: two rows, stored offset 1, no
selection. -/
theorem claim5_none_selection_offset_zero_witness :
    ∃ e st', Table.get_row_bounds ⟨[], 1, [⟨1, 0⟩, ⟨1, 0⟩], SegmentSize.None⟩
        (TableState.mk 1 none).selected (TableState.mk 1 none).offset 1 =
        some (0, e) ∧
      render_rows_update ⟨[], 1, [⟨1, 0⟩, ⟨1, 0⟩], SegmentSize.None⟩
        (TableState.mk 1 none) 1 = some st' ∧ st'.offset = 0 :=
  claim5_none_selection_offset_zero
    ⟨[], 1, [⟨1, 0⟩, ⟨1, 0⟩], SegmentSize.None⟩ (TableState.mk 1 none) 1
    (by decide) rfl

/-- Claim C6: `select v` sets `selected = v`; `select none` additionally
resets the offset to 0, and `select (some i)` leaves the offset
unchanged. -/
theorem claim6_select_transition (st : TableState) (v : Option Nat) :
    (st.select v).selected = v ∧ (st.select none).offset = 0 ∧
      ∀ i : Nat, (st.select (some i)).offset = st.offset :=
  ⟨rfl, rfl, fun _ => rfl⟩

/-- Claim C7: constructing a table (via `Table.new` or the `with_widths`
builder) fails exactly when the width constraints contain a percentage
above 100; it succeeds whenever every percentage is at most 100. -/
theorem claim7_percentage_validation (rows : List Row)
    (widths : List Constraint) (t : Table) :
    (Table.new rows widths = none ↔
      ∃ p, Constraint.Percentage p ∈ widths ∧ 100 < p) ∧
    (t.with_widths widths = none ↔
      ∃ p, Constraint.Percentage p ∈ widths ∧ 100 < p) := by
  by_cases hE : ensure_percentages_less_than_100 widths = true
  · have hnot : ¬ ∃ p, Constraint.Percentage p ∈ widths ∧ 100 < p := by
      rw [ensure_iff] at hE
      rintro ⟨p, hp, hgt⟩
      have := hE p hp
      omega
    constructor
    · constructor
      · intro h
        simp only [Table.new, if_pos hE] at h
        exact Option.noConfusion h
      · intro h
        exact absurd h hnot
    · constructor
      · intro h
        simp only [Table.with_widths, if_pos hE] at h
        exact Option.noConfusion h
      · intro h
        exact absurd h hnot
  · have hex : ∃ p, Constraint.Percentage p ∈ widths ∧ 100 < p := by
      have hE' : ¬ ∀ p : Nat, Constraint.Percentage p ∈ widths → p ≤ 100 := by
        rw [← ensure_iff]
        exact hE
      push_neg at hE'
      exact hE'
    constructor
    · constructor
      · intro _
        exact hex
      · intro _
        simp only [Table.new, if_neg hE]
    · constructor
      · intro _
        exact hex
      · intro _
        simp only [Table.with_widths, if_neg hE]

/-- Claim C8: two `Length 4` columns with spacing 1 in a width-20
viewport give the spans `[(0,4), (5,4)]` with marker width 0 and
`[(3,4), (8,4)]` with marker width 3. -/
theorem claim8_concrete_column_spans :
    Table.get_columns_widths
      ⟨[Constraint.Length 4, Constraint.Length 4], 1, [], SegmentSize.None⟩
      20 0 = [(0, 4), (5, 4)] ∧
    Table.get_columns_widths
      ⟨[Constraint.Length 4, Constraint.Length 4], 1, [], SegmentSize.None⟩
      20 3 = [(3, 4), (8, 4)] :=
  ⟨rfl, rfl⟩

/-- Claim C9: column allocation is deterministic and idempotent — two
calls of `get_columns_widths` with identical inputs return identical
span sequences (the embedding is a pure function of the table's
constraints, spacing, distribution policy, viewport width and marker
width). -/
theorem claim9_column_widths_deterministic (t : Table) (mw sw : Nat) :
    t.get_columns_widths mw sw = t.get_columns_widths mw sw := rfl

/-- Claim C10: on a non-empty row list, `get_row_bounds` terminates and
never panics, for arbitrary (also out-of-range) offset hint, selection
and available height: in the embedding every `rows[start]`/`rows[end]`
access is an `Option`-checked lookup, the `end -= 1` underflow and fuel
exhaustion yield `none`, and the empty-list `len() - 1` underflow is the
guarded top-level case — so `isSome` states that no access leaves
`[0, rowCount)` and every loop terminates within its fuel. -/
theorem claim10_row_bounds_no_panic (t : Table) (selo : Option Nat)
    (offset maxH : Nat) (hne : t.rows ≠ []) :
    (t.get_row_bounds selo offset maxH).isSome = true := by
  obtain ⟨s, e, h1, -, -, -⟩ := get_row_bounds_run t selo offset maxH hne
  rw [h1]
  rfl

/-- Witness for C10 at a concrete input with out-of-range selection and
offset: one row of height 3 with margin 2, selection 7, offset 9,
available height 1. -/
theorem claim10_row_bounds_no_panic_witness :
    (Table.get_row_bounds ⟨[], 1, [⟨3, 2⟩], SegmentSize.None⟩ (some 7) 9
      1).isSome = true :=
  claim10_row_bounds_no_panic ⟨[], 1, [⟨3, 2⟩], SegmentSize.None⟩ (some 7) 9 1
    (by decide)

end RatatuiTable
